import Mathlib

/-!
Verification of the md2img document-layout engine.

This file gives a shallow embedding, in Lean, of the parts of the md2img
Python code base that the checked properties talk about:

* the cascading style stack of `core/renderer.py` (`push_style`,
  `get_current_style`),
* the inline node types of `core/nodes/inline.py` (`TextSpan`, `LineBreak`,
  the `StyledText` family) together with their `measure_width` /
  `measure_height` methods,
* the line-breaking layout engine of `core/layout.py`
  (`layout_paragraph`, `_layout_text`, `_layout_cjk_text`),
* the `Paragraph` block of `core/nodes/block.py` with its
  `measure_height` / `render` pair,
* the list nodes of `core/nodes/block.py` (`List.add`, `ListItem.__add__`,
  `List.__add__`, `List.__init__`) and their index renumbering,
* node concatenation `MDNode.__add__` of `core/nodes/base.py`,
* the Markdown parser of `processor.py`.

Python mutation of the renderer's style stack is made explicit: every
function that may touch the stack takes the stack and returns the
(possibly updated) stack.  The external collaborators (PIL fonts, the
drawing surface) are abstracted exactly at the boundary the code uses
them: a font is a pair of metric functions `getlength` / `getbbox`, and
the renderer context maps the current style to a font, mirroring
`Renderer.get_current_font`.  Pixel drawing has no bearing on any checked
property and is dropped.
-/

/-! ## Style records (`config.py`, `renderer.py`)

A Python style dict maps string keys to heterogeneous values (strings,
ints, 4-tuples).  `SVal` covers the value shapes that appear in the
code base. -/

inductive SVal where
  | s (v : String)
  | n (v : Int)
  | tup (a b c d : Int)
deriving DecidableEq, Repr

/-- A style record: an association list standing for a Python dict. -/
abbrev Style := List (String × SVal)

/-- Dict key lookup. -/
def lookupS (st : Style) (k : String) : Option SVal :=
  (st.find? (fun kv => kv.1 = k)).map (fun kv => kv.2)

/-- Python `base.copy(); base.update(ov)`: keys of `base` keep their
position but take the value from `ov` when `ov` binds them; keys only in
`ov` are appended. -/
def styleUpdate (base ov : Style) : Style :=
  (base.map (fun kv =>
    match lookupS ov kv.1 with
    | some v => (kv.1, v)
    | none => kv))
  ++ ov.filter (fun kv => (lookupS base kv.1).isNone)

/-- `Renderer.get_current_style`: the stack top, or the configured
global style if the stack is empty (renderer.py lines 96-100).  The
Python stack appends/pops at the end of a list; we keep the top at the
head. -/
def getCurrentStyle (g : Style) (st : List Style) : Style :=
  match st with
  | [] => g
  | top :: _ => top

/-- The pushing half of `Renderer.push_style` (renderer.py lines 87-89):
compute current top merged with the override and push it.  The
context-manager `finally: pop` is modelled at each use site by taking
`.tail` of the stack after the body ran. -/
def pushStyle (g : Style) (st : List Style) (ov : Style) : List Style :=
  styleUpdate (getCurrentStyle g st) ov :: st

/-! ## Fonts and the renderer context

`TextSpan.measure_width` calls `renderer.get_current_font().getlength`,
and the height measurements use `font.getbbox`.  `get_current_font` is a
pure function of the current style (it extracts family/size/weight/style
and asks the external `FontManager`); we abstract it as a map from the
full style record to a font's metric functions.  Metrics are integers;
only their ordered-arithmetic structure matters to the properties. -/

structure FontM where
  /-- `font.getlength text` -/
  getlength : String → Int
  /-- `bbox[2] - bbox[0]` of `font.getbbox text` -/
  bboxW : String → Int
  /-- `bbox[3] - bbox[1]` of `font.getbbox text` -/
  bboxH : String → Int

structure RCtx where
  /-- `Renderer.get_current_font` as a function of the current style. -/
  getFont : Style → FontM
  /-- `config.get_style("global")`, the empty-stack fallback. -/
  global : Style

/-- The font the renderer would use on stack `st`. -/
def RCtx.curFont (ctx : RCtx) (st : List Style) : FontM :=
  ctx.getFont (getCurrentStyle ctx.global st)

/-! ## Inline nodes (`core/nodes/inline.py`) -/

/-- The concrete `StyledText` subclasses. -/
inductive SKind where
  | bold
  | italic
  | code
  | strike
deriving DecidableEq, Repr

/-- `get_style_overrides` of each `StyledText` subclass. -/
def overridesOf : SKind → Style
  | .bold => [("font_weight", .s "bold")]
  | .italic => [("font_style", .s "italic")]
  | .code =>
      [("font_family", .s "monospace"),
       ("background_color", .s "#f0f0f0"),
       ("padding", .tup 2 4 2 4),
       ("border_radius", .n 3)]
  | .strike => [("text_decoration", .s "line-through")]

/-- Inline node trees: `TextSpan`, `LineBreak`, and the `StyledText`
family (whose constructor wraps a plain-string argument into a single
`TextSpan` child, so children are always a node list). -/
inductive Inline where
  | textSpan (text : String)
  | lineBreak
  | styled (kind : SKind) (children : List Inline)
deriving Repr

mutual

/-- `get_text_content` (inline.py): `TextSpan` returns its text,
`LineBreak` returns a newline, `StyledText` concatenates children. -/
def textContent : Inline → String
  | .textSpan s => s
  | .lineBreak => "\n"
  | .styled _ cs => textContentL cs

def textContentL : List Inline → String
  | [] => ""
  | c :: cs => textContent c ++ textContentL cs

end

mutual

/-- `measure_width` of an inline node, with the style stack threaded
explicitly.  `TextSpan`: `font.getlength(text)` for the current font;
`LineBreak`: 0; `StyledText`: per child, push the overrides, measure the
child against the remaining width, pop, and accumulate
(inline.py lines 32-34, 60-63, 107-116). -/
def measureWidthI (ctx : RCtx) : Inline → Int → List Style → Int × List Style
  | .textSpan s, _, st => ((ctx.curFont st).getlength s, st)
  | .lineBreak, _, st => (0, st)
  | .styled k cs, maxW, st => measureWidthL ctx (overridesOf k) cs maxW 0 st

/-- The `for child in self.children` loop of `StyledText.measure_width`,
carrying `total_width`. -/
def measureWidthL (ctx : RCtx) (ov : Style) :
    List Inline → Int → Int → List Style → Int × List Style
  | [], _, total, st => (total, st)
  | c :: cs, maxW, total, st =>
      let st1 := pushStyle ctx.global st ov
      let r := measureWidthI ctx c (maxW - total) st1
      measureWidthL ctx ov cs maxW (total + r.1) r.2.tail

end

mutual

/-- `measure_height` of an inline node, style stack threaded.
`TextSpan`: bbox height of its text; `LineBreak`: bbox height of `"X"`;
`StyledText`: per child, push overrides, measure width then height, take
the running max of heights and subtract the child width from the
remaining width, pop (inline.py lines 36-41, 65-69, 118-132). -/
def measureHeightI (ctx : RCtx) : Inline → Int → List Style → Int × List Style
  | .textSpan s, _, st => ((ctx.curFont st).bboxH s, st)
  | .lineBreak, _, st => ((ctx.curFont st).bboxH "X", st)
  | .styled k cs, availW, st => measureHeightL ctx (overridesOf k) cs availW 0 st

/-- The loop of `StyledText.measure_height`, carrying `max_height` and
`remaining_width`. -/
def measureHeightL (ctx : RCtx) (ov : Style) :
    List Inline → Int → Int → List Style → Int × List Style
  | [], _, maxH, st => (maxH, st)
  | c :: cs, remW, maxH, st =>
      let st1 := pushStyle ctx.global st ov
      let rw := measureWidthI ctx c remW st1
      let rh := measureHeightI ctx c remW rw.2
      measureHeightL ctx ov cs (remW - rw.1) (max maxH rh.1) rh.2.tail

end

/-! ## The layout engine (`core/layout.py`) -/

/-- One CJK test of `cjk_pattern` (layout.py line 15):
`[一-鿿　-ヿ＀-￯]`. -/
def isCJKChar (c : Char) : Bool :=
  (0x4e00 ≤ c.toNat && c.toNat ≤ 0x9fff) ||
  (0x3000 ≤ c.toNat && c.toNat ≤ 0x30ff) ||
  (0xff00 ≤ c.toNat && c.toNat ≤ 0xffef)

/-- `self.cjk_pattern.search(text)` truthiness. -/
def containsCJK (s : String) : Bool :=
  s.data.any isCJKChar

/-- A `parts` entry built by `_layout_text` / `_layout_cjk_text`:
`{"node": part_node, "width": part_width, "height": part_height}`. -/
structure LPart where
  node : Inline
  width : Int
  height : Int
deriving Repr

/-- Build one part from an accumulated string: `TextSpan(current_part)`
measured with the current font (layout.py lines 147-153). -/
def mkPart (f : FontM) (s : String) : LPart :=
  { node := .textSpan s, width := f.getlength s, height := f.bboxH s }

/-- Python `text.split(" ")` on the character list: split at every
single space, keeping empty pieces (so `"a  b"` gives `a`, `\x7b\x7d`, `b`
and the empty text gives one empty word, exactly as in CPython). -/
def splitSpaces : List Char → List (List Char)
  | [] => [[]]
  | c :: cs =>
      let r := splitSpaces cs
      if c = ' ' then [] :: r
      else
        match r with
        | w :: ws => (c :: w) :: ws
        | [] => [[c]]

/-- `text.split(" ")` as the source calls it (layout.py line 130). -/
def pySplitSpace (s : String) : List String :=
  (splitSpaces s.data).map String.mk

/-- The token stream `_layout_text` walks: Python splits on every single
space (`text.split(" ")`) and, for each word except the last, re-appends
the separating space onto the word before testing it
(`test_text = current_part + word; if i < len(words) - 1: test_text += " "`).
So the loop consumes, in order, the tokens `wᵢ ++ " "` for every word
but the last and `w_last` bare. -/
def spaceTokens (s : String) : List String :=
  match (pySplitSpace s).reverse with
  | [] => []
  | lastW :: restRev => (restRev.reverse.map (fun w => w ++ " ")) ++ [lastW]

/-- The accumulation loop shared by `_layout_text` (over word tokens)
and `_layout_cjk_text` (over character tokens), layout.py lines 133-176
and 185-225: grow `current_part` token by token; when
`current_line_width + width(current_part ++ tok) > available_width` and
`current_part` is non-empty, emit `current_part` as a part, restart from
`tok` and zero the line width; finally emit the leftover `current_part`
if non-empty. -/
def layoutRun (f : FontM) (availW : Int) :
    List String → String → Int → List LPart → List LPart
  | [], curPart, _, acc =>
      if curPart ≠ "" then acc ++ [mkPart f curPart] else acc
  | tok :: toks, curPart, curLW, acc =>
      let testText := curPart ++ tok
      let width := f.getlength testText
      if curLW + width > availW ∧ curPart ≠ "" then
        layoutRun f availW toks tok 0 (acc ++ [mkPart f curPart])
      else
        layoutRun f availW toks testText curLW acc

/-- `_layout_cjk_text` (layout.py lines 178-225): the run loop over the
individual characters of the text. -/
def layoutCjkText (ctx : RCtx) (availW curLW : Int) (st : List Style)
    (text : String) : List LPart :=
  layoutRun (ctx.curFont st) availW (text.data.map (fun c => String.mk [c])) "" curLW []

/-- `_layout_text` (layout.py lines 114-176): empty text gives no
parts; text containing a CJK character is delegated to
`_layout_cjk_text`; otherwise the run loop goes over the
space-delimited word tokens. -/
def layoutText (ctx : RCtx) (availW curLW : Int) (st : List Style)
    (text : String) : List LPart :=
  if text = "" then []
  else if containsCJK text then layoutCjkText ctx availW curLW st text
  else layoutRun (ctx.curFont st) availW (spaceTokens text) "" curLW []

/-- A `current_line` entry of `layout_paragraph`:
`{"node": ..., "width": ...}`. -/
structure LineItem where
  node : Inline
  width : Int
deriving Repr

/-- A finished line: `{"items": ..., "width": ..., "height": ...}`. -/
structure Line where
  items : List LineItem
  width : Int
  height : Int
deriving Repr

/-- The result dict of `layout_paragraph`:
`{"lines": ..., "height": ..., "width": available_width}`. -/
structure LayoutResult where
  lines : List Line
  height : Int
  width : Int
deriving Repr

/-- The mutable locals of `layout_paragraph`: the grown result plus
`current_line`, `current_line_width`, `current_line_height`. -/
structure LState where
  lines : List Line
  height : Int
  cur : List LineItem
  curW : Int
  curH : Int
deriving Repr

/-- Close the current line (layout.py lines 44-57 / 77-90): append it to
the result, add its height to the total, and reset the line locals. -/
def closeLine (s : LState) : LState :=
  { lines := s.lines ++ [{ items := s.cur, width := s.curW, height := s.curH }],
    height := s.height + s.curH,
    cur := [], curW := 0, curH := 0 }

/-- Append one item to the current line (layout.py lines 59-64 / 96-99):
grow `current_line`, add the width, max the height. -/
def addItem (s : LState) (node : Inline) (w h : Int) : LState :=
  { s with
    cur := s.cur ++ [{ node := node, width := w }],
    curW := s.curW + w,
    curH := max s.curH h }

/-- Place one text part (layout.py lines 38-64): close the line first iff
it does not fit and the line is non-empty. -/
def placePart (availW : Int) (s : LState) (p : LPart) : LState :=
  if s.curW + p.width > availW ∧ s.cur.isEmpty = false then
    addItem (closeLine s) p.node p.width p.height
  else
    addItem s p.node p.width p.height

/-- Place one non-`TextSpan` inline node (layout.py lines 66-99): measure
against the remaining width; if it does not fit on a non-empty line,
close the line and re-measure against the full width; then append.  The
style stack is threaded through the measure calls. -/
def placeAtomic (ctx : RCtx) (availW : Int) (s : LState) (n : Inline)
    (st : List Style) : LState × List Style :=
  let rw := measureWidthI ctx n (availW - s.curW) st
  let rh := measureHeightI ctx n (availW - s.curW) rw.2
  if s.curW + rw.1 > availW ∧ s.cur.isEmpty = false then
    let s1 := closeLine s
    let rw2 := measureWidthI ctx n availW rh.2
    let rh2 := measureHeightI ctx n availW rw2.2
    (addItem s1 n rw2.1 rh2.1, rh2.2)
  else
    (addItem s n rw.1 rh.1, rh.2)

/-- The `for node in paragraph.children` loop of `layout_paragraph`
(layout.py lines 32-99). -/
def layoutChildren (ctx : RCtx) (availW : Int) :
    List Inline → LState → List Style → LState × List Style
  | [], s, st => (s, st)
  | n :: ns, s, st =>
      match n with
      | .textSpan t =>
          let parts := layoutText ctx availW s.curW st t
          layoutChildren ctx availW ns (parts.foldl (placePart availW) s) st
      | n' =>
          let r := placeAtomic ctx availW s n' st
          layoutChildren ctx availW ns r.1 r.2

/-- `Paragraph` (block.py lines 93-147): the inline-flow container.  The
margins play no role in the properties below but are carried as the
source does. -/
structure ParagraphN where
  children : List Inline
  marginTop : Int := 8
  marginBottom : Int := 8

/-- `LayoutEngine.layout_paragraph` (layout.py lines 17-112): empty
paragraphs yield the empty result; otherwise run the child loop from
empty locals and flush the last non-empty line. -/
def layout_paragraph (ctx : RCtx) (p : ParagraphN) (availW : Int)
    (st : List Style) : LayoutResult × List Style :=
  if p.children.isEmpty then
    ({ lines := [], height := 0, width := availW }, st)
  else
    let r := layoutChildren ctx availW p.children
      { lines := [], height := 0, cur := [], curW := 0, curH := 0 } st
    let s := r.1
    if s.cur.isEmpty = false then
      ({ lines := s.lines ++ [{ items := s.cur, width := s.curW, height := s.curH }],
         height := s.height + s.curH, width := availW }, r.2)
    else
      ({ lines := s.lines, height := s.height, width := availW }, r.2)

/-- `Paragraph.measure_height` (block.py lines 120-123): run the layout
engine and return the `height` entry. -/
def ParagraphN.measure_height (ctx : RCtx) (p : ParagraphN) (availW : Int)
    (st : List Style) : Int × List Style :=
  let r := layout_paragraph ctx p availW st
  (r.1.height, r.2)

/-! ## Inline rendering (`core/nodes/inline.py`, render methods)

Draw calls go to the external drawing surface and are dropped; what is
kept is exactly what flows back into the program: the returned
`(used_width, used_height)` pairs and the style-stack mutation. -/

/-- `padding` lookup of `Code.render`:
`style_overrides.get("padding", (2, 4, 2, 4))`. -/
def padOf (ov : Style) : Int × Int × Int × Int :=
  match lookupS ov "padding" with
  | some (.tup a b c d) => (a, b, c, d)
  | _ => (2, 4, 2, 4)

mutual

/-- `render` of an inline node (stack threaded, drawing dropped).
`TextSpan.render` returns the bbox width/height of its text;
`LineBreak.render` returns `(0, measure_height)`; `Bold`/`Italic`
(plain `StyledText.render`) and `Strikethrough.render` render children
one by one, each under a pushed override, accumulating width and maxing
height; `Code.render` measures itself, pads, and renders the children
under a single pushed override (inline.py lines 47-50, 75-88, 134-148,
180-228, 237-266). -/
def renderI (ctx : RCtx) : Inline → Int → List Style → (Int × Int) × List Style
  | .textSpan s, _, st => (((ctx.curFont st).bboxW s, (ctx.curFont st).bboxH s), st)
  | .lineBreak, _, st => ((0, (ctx.curFont st).bboxH "X"), st)
  | .styled .code cs, availW, st =>
      let ov := overridesOf .code
      let pad := padOf ov
      let rw := measureWidthI ctx (.styled .code cs) availW st
      let rh := measureHeightI ctx (.styled .code cs) availW rw.2
      let bgW := rw.1 + pad.2.1 + pad.2.2.2
      let bgH := rh.1 + pad.1 + pad.2.2.1
      let st1 := pushStyle ctx.global rh.2 ov
      let r := renderCodeChildren ctx cs (availW - pad.2.1 - pad.2.2.2) 0 0 st1
      ((bgW, bgH), r.2.tail)
  | .styled k cs, availW, st =>
      renderChildren ctx (overridesOf k) cs availW 0 0 st

/-- The child loop shared by `StyledText.render` and
`Strikethrough.render`: each child is rendered under its own push of the
overrides, against the width left over by its predecessors. -/
def renderChildren (ctx : RCtx) (ov : Style) :
    List Inline → Int → Int → Int → List Style → (Int × Int) × List Style
  | [], _, accW, maxH, st => ((accW, maxH), st)
  | c :: cs, availW, accW, maxH, st =>
      let st1 := pushStyle ctx.global st ov
      let r := renderI ctx c (availW - accW) st1
      renderChildren ctx ov cs availW (accW + r.1.1) (max maxH r.1.2) r.2.tail

/-- The child loop of `Code.render`: a single enclosing push, every
child rendered against the same padded width. -/
def renderCodeChildren (ctx : RCtx) :
    List Inline → Int → Int → Int → List Style → (Int × Int) × List Style
  | [], _, accW, maxH, st => ((accW, maxH), st)
  | c :: cs, availW, accW, maxH, st =>
      let r := renderI ctx c availW st
      renderCodeChildren ctx cs availW (accW + r.1.1) (max maxH r.1.2) r.2

end

/-- The inner item loop of `Paragraph.render` (block.py lines 139-142):
each item is rendered with its own recorded width as available width;
only the stack mutation survives here. -/
def renderLineItems (ctx : RCtx) : List LineItem → List Style → List Style
  | [], st => st
  | it :: its, st =>
      let r := renderI ctx it.node it.width st
      renderLineItems ctx its r.2

/-- The line loop of `Paragraph.render` (block.py lines 134-145),
returning the realized lines in render order together with
`(max_width, current_y - y)` and the final stack. -/
def renderLines (ctx : RCtx) :
    List Line → List Line → Int → Int → List Style →
    (List Line × Int × Int) × List Style
  | [], trace, maxW, y, st => ((trace, maxW, y), st)
  | l :: ls, trace, maxW, y, st =>
      let st1 := renderLineItems ctx l.items st
      renderLines ctx ls (trace ++ [l]) (max maxW l.width) (y + l.height) st1

/-- `Paragraph.render` (block.py lines 125-147): lay the paragraph out,
then walk the lines.  Returns the realized line trace, the used width
and the used height. -/
def ParagraphN.render (ctx : RCtx) (p : ParagraphN) (availW : Int)
    (st : List Style) : (List Line × Int × Int) × List Style :=
  let r := layout_paragraph ctx p availW st
  renderLines ctx r.1.lines [] 0 0 r.2

/-! ## Scoped style execution (`Renderer.push_style` as a context manager)

`push_style` is a `@contextmanager`: the body runs between the push and
a `finally: self.style_stack.pop()`, so the pop happens on normal exit
and when an exception propagates out of the body.  `RProg` is the shape
of work a render/measure walk does to the stack: plain leaf work, a
raising leaf, a scoped subtree, and sequencing (where a raise in the
first part skips the second and propagates). -/

inductive RProg where
  | leaf
  | fail
  | scope (ov : Style) (body : RProg)
  | seq (a b : RProg)

/-- Run a walk over the style stack.  `scope` is the literal
`with self.push_style(ov): body` translation: push the merged top, run
the body, and pop in every case — also when the body produced an
error. -/
def runProg (g : Style) : RProg → List Style → Except Unit Unit × List Style
  | .leaf, st => (.ok (), st)
  | .fail, st => (.error (), st)
  | .scope ov body, st =>
      let st1 := pushStyle g st ov
      let r := runProg g body st1
      (r.1, r.2.tail)
  | .seq a b, st =>
      match runProg g a st with
      | (.ok _, st1) => runProg g b st1
      | (.error e, st1) => (.error e, st1)

/-! ## Stack balance of the measure/render walks

Every `with push_style(...)` in the source pops in a `finally`, so each
measure/render call leaves the style stack exactly as it found it.
These lemmas make that explicit; they back the purity, scoping and
phase-agreement properties below. -/

mutual

theorem measureWidthI_stack (ctx : RCtx) (n : Inline) (w : Int)
    (st : List Style) : (measureWidthI ctx n w st).2 = st := by
  cases n with
  | textSpan s => simp [measureWidthI]
  | lineBreak => simp [measureWidthI]
  | styled k cs => simpa [measureWidthI] using measureWidthL_stack ctx (overridesOf k) cs w 0 st

theorem measureWidthL_stack (ctx : RCtx) (ov : Style) (cs : List Inline)
    (maxW total : Int) (st : List Style) :
    (measureWidthL ctx ov cs maxW total st).2 = st := by
  cases cs with
  | nil => simp [measureWidthL]
  | cons c cs' =>
      simp only [measureWidthL]
      rw [measureWidthI_stack ctx c (maxW - total) (pushStyle ctx.global st ov)]
      simpa [pushStyle] using
        measureWidthL_stack ctx ov cs' maxW
          (total + (measureWidthI ctx c (maxW - total) (pushStyle ctx.global st ov)).1) st

end

mutual

theorem measureHeightI_stack (ctx : RCtx) (n : Inline) (w : Int)
    (st : List Style) : (measureHeightI ctx n w st).2 = st := by
  cases n with
  | textSpan s => simp [measureHeightI]
  | lineBreak => simp [measureHeightI]
  | styled k cs => simpa [measureHeightI] using measureHeightL_stack ctx (overridesOf k) cs w 0 st

theorem measureHeightL_stack (ctx : RCtx) (ov : Style) (cs : List Inline)
    (remW maxH : Int) (st : List Style) :
    (measureHeightL ctx ov cs remW maxH st).2 = st := by
  cases cs with
  | nil => simp [measureHeightL]
  | cons c cs' =>
      simp only [measureHeightL]
      rw [measureWidthI_stack, measureHeightI_stack]
      simpa [pushStyle] using
        measureHeightL_stack ctx ov cs'
          (remW - (measureWidthI ctx c remW (pushStyle ctx.global st ov)).1)
          (max maxH (measureHeightI ctx c remW (pushStyle ctx.global st ov)).1) st

end

/-! Width measurement never depends on the width argument: `TextSpan`
and `LineBreak` ignore it outright, and `StyledText` only threads it
into recursive calls that ignore it in turn. -/

mutual

theorem measureWidthI_indep (ctx : RCtx) (n : Inline) (w w' : Int)
    (st : List Style) : measureWidthI ctx n w st = measureWidthI ctx n w' st := by
  cases n with
  | textSpan s => simp [measureWidthI]
  | lineBreak => simp [measureWidthI]
  | styled k cs => simpa [measureWidthI] using
      measureWidthL_indep ctx (overridesOf k) cs w w' 0 st

theorem measureWidthL_indep (ctx : RCtx) (ov : Style) (cs : List Inline)
    (maxW maxW' total : Int) (st : List Style) :
    measureWidthL ctx ov cs maxW total st = measureWidthL ctx ov cs maxW' total st := by
  cases cs with
  | nil => simp [measureWidthL]
  | cons c cs' =>
      simp only [measureWidthL]
      rw [measureWidthI_indep ctx c (maxW - total) (maxW' - total),
          measureWidthI_stack]
      simp only [pushStyle, List.tail_cons]
      exact measureWidthL_indep ctx ov cs' maxW maxW'
        (total + (measureWidthI ctx c (maxW' - total) (pushStyle ctx.global st ov)).1) st

end

mutual

theorem measureHeightI_indep (ctx : RCtx) (n : Inline) (w w' : Int)
    (st : List Style) : measureHeightI ctx n w st = measureHeightI ctx n w' st := by
  cases n with
  | textSpan s => simp [measureHeightI]
  | lineBreak => simp [measureHeightI]
  | styled k cs => simpa [measureHeightI] using
      measureHeightL_indep ctx (overridesOf k) cs w w' 0 st

theorem measureHeightL_indep (ctx : RCtx) (ov : Style) (cs : List Inline)
    (remW remW' maxH : Int) (st : List Style) :
    measureHeightL ctx ov cs remW maxH st = measureHeightL ctx ov cs remW' maxH st := by
  cases cs with
  | nil => simp [measureHeightL]
  | cons c cs' =>
      simp only [measureHeightL]
      rw [measureWidthI_indep ctx c remW remW', measureWidthI_stack,
          measureHeightI_indep ctx c remW remW', measureHeightI_stack]
      simp only [pushStyle, List.tail_cons]
      exact measureHeightL_indep ctx ov cs'
        (remW - (measureWidthI ctx c remW' (pushStyle ctx.global st ov)).1)
        (remW' - (measureWidthI ctx c remW' (pushStyle ctx.global st ov)).1)
        (max maxH (measureHeightI ctx c remW' (pushStyle ctx.global st ov)).1) st

end

mutual

theorem renderI_stack (ctx : RCtx) (n : Inline) (w : Int)
    (st : List Style) : (renderI ctx n w st).2 = st := by
  cases n with
  | textSpan s => simp [renderI]
  | lineBreak => simp [renderI]
  | styled k cs =>
      cases k with
      | code =>
          simp only [renderI, measureWidthI_stack, measureHeightI_stack]
          rw [renderCodeChildren_stack]
          simp [pushStyle]
      | bold => simpa [renderI] using
          renderChildren_stack ctx (overridesOf .bold) cs w 0 0 st
      | italic => simpa [renderI] using
          renderChildren_stack ctx (overridesOf .italic) cs w 0 0 st
      | strike => simpa [renderI] using
          renderChildren_stack ctx (overridesOf .strike) cs w 0 0 st

theorem renderChildren_stack (ctx : RCtx) (ov : Style) (cs : List Inline)
    (availW accW maxH : Int) (st : List Style) :
    (renderChildren ctx ov cs availW accW maxH st).2 = st := by
  cases cs with
  | nil => simp [renderChildren]
  | cons c cs' =>
      simp only [renderChildren]
      rw [renderI_stack]
      simpa [pushStyle] using
        renderChildren_stack ctx ov cs' availW
          (accW + (renderI ctx c (availW - accW) (pushStyle ctx.global st ov)).1.1)
          (max maxH (renderI ctx c (availW - accW) (pushStyle ctx.global st ov)).1.2) st

theorem renderCodeChildren_stack (ctx : RCtx) (cs : List Inline)
    (availW accW maxH : Int) (st : List Style) :
    (renderCodeChildren ctx cs availW accW maxH st).2 = st := by
  cases cs with
  | nil => simp [renderCodeChildren]
  | cons c cs' =>
      simp only [renderCodeChildren]
      rw [renderI_stack]
      exact renderCodeChildren_stack ctx cs' availW
        (accW + (renderI ctx c availW st).1.1)
        (max maxH (renderI ctx c availW st).1.2) st

end

theorem placeAtomic_stack (ctx : RCtx) (availW : Int) (s : LState)
    (n : Inline) (st : List Style) : (placeAtomic ctx availW s n st).2 = st := by
  simp only [placeAtomic, measureWidthI_stack, measureHeightI_stack]
  split <;> rfl

theorem layoutChildren_stack (ctx : RCtx) (availW : Int) (ns : List Inline)
    (s : LState) (st : List Style) :
    (layoutChildren ctx availW ns s st).2 = st := by
  induction ns generalizing s st with
  | nil => simp [layoutChildren]
  | cons n ns' ih =>
      cases n with
      | textSpan t => simpa [layoutChildren] using ih _ st
      | lineBreak =>
          simp only [layoutChildren]
          rw [ih, placeAtomic_stack]
      | styled k cs =>
          simp only [layoutChildren]
          rw [ih, placeAtomic_stack]

theorem layout_paragraph_stack (ctx : RCtx) (p : ParagraphN) (availW : Int)
    (st : List Style) : (layout_paragraph ctx p availW st).2 = st := by
  simp only [layout_paragraph]
  split
  · rfl
  · rw [layoutChildren_stack] at *
    split <;> simp [layoutChildren_stack]

theorem measure_height_stack (ctx : RCtx) (p : ParagraphN) (availW : Int)
    (st : List Style) : (p.measure_height ctx availW st).2 = st := by
  simp [ParagraphN.measure_height, layout_paragraph_stack]

theorem renderLineItems_stack (ctx : RCtx) (its : List LineItem)
    (st : List Style) : renderLineItems ctx its st = st := by
  induction its generalizing st with
  | nil => simp [renderLineItems]
  | cons it its' ih =>
      simp only [renderLineItems]
      rw [renderI_stack]
      exact ih st

theorem renderLines_stack (ctx : RCtx) (ls trace : List Line)
    (maxW y : Int) (st : List Style) :
    (renderLines ctx ls trace maxW y st).2 = st := by
  induction ls generalizing trace maxW y st with
  | nil => simp [renderLines]
  | cons l ls' ih =>
      simp only [renderLines]
      rw [renderLineItems_stack]
      exact ih _ _ _ st

theorem runProg_stack (g : Style) (prog : RProg) (st : List Style) :
    (runProg g prog st).2 = st := by
  induction prog generalizing st with
  | leaf => rfl
  | fail => rfl
  | scope ov body ih =>
      simp only [runProg]
      rw [ih]
      simp [pushStyle]
  | seq a b iha ihb =>
      simp only [runProg]
      rcases h : runProg g a st with ⟨r, st1⟩
      have hst1 : st1 = st := by
        have := iha st
        rw [h] at this
        exact this
      cases r with
      | ok v =>
          subst hst1
          exact ihb st1
      | error e => simpa using hst1

/-! ## C3: scoped style push/pop balance -/

/-- C3.  For every style override and every nesting of `push_style`
scopes, a scope's exit — normal or by a propagating exception — pops
exactly the entry the scope pushed: the stack the body ran on is the
pushed entry over the original stack and the body returns it unchanged,
the stack after the scope is exactly the original one, and
`get_current_style()` afterwards is exactly the pre-push style. -/
theorem push_style_scope_restores (g ov : Style) (body : RProg)
    (st : List Style) :
    (runProg g body (pushStyle g st ov)).2 = pushStyle g st ov ∧
    (runProg g (.scope ov body) st).2 = st ∧
    getCurrentStyle g (runProg g (.scope ov body) st).2 = getCurrentStyle g st := by
  refine ⟨runProg_stack g body _, ?_, ?_⟩ <;>
    simp [runProg, runProg_stack, pushStyle]

/-! ## C8: measurement is pure -/

/-- C8.  For every paragraph, width and style configuration, measuring
twice in a row gives identical results: `measure_height` leaves the
style stack exactly as it found it, so the second call starts from the
same observable state and returns the same height. -/
theorem measure_height_pure_twice (ctx : RCtx) (p : ParagraphN)
    (availW : Int) (st : List Style) :
    (p.measure_height ctx availW st).2 = st ∧
    (p.measure_height ctx availW (p.measure_height ctx availW st).2).1
      = (p.measure_height ctx availW st).1 ∧
    (p.measure_height ctx availW (p.measure_height ctx availW st).2).2 = st := by
  refine ⟨measure_height_stack ctx p availW st, ?_, ?_⟩ <;>
    rw [measure_height_stack ctx p availW st]
  exact measure_height_stack ctx p availW st

/-! ## C10: a text span's measured size ignores the width argument -/

/-- C10.  `TextSpan.measure_width` and `TextSpan.measure_height` are the
intrinsic font metrics of the span's text: for any two width arguments
they return the same value (and the same untouched stack) — the
available-width parameter is never used, and in particular never clamps
the result. -/
theorem textSpan_measure_ignores_width (ctx : RCtx) (s : String)
    (w1 w2 : Int) (st : List Style) :
    measureWidthI ctx (.textSpan s) w1 st = measureWidthI ctx (.textSpan s) w2 st ∧
    measureHeightI ctx (.textSpan s) w1 st = measureHeightI ctx (.textSpan s) w2 st :=
  ⟨rfl, rfl⟩

/-! ## C2: `LineBreak` does not actually close the line

`layout_paragraph` has no `LineBreak` case: a `LineBreak` falls into the
generic non-`TextSpan` branch, measures width 0, always fits, and is
appended to the current line like any other item — nothing closes the
line after it, so following content continues on the same line.  This
contradicts `LineBreak`'s own docstring ("width 0 so the layout engine
knows it must break the line") and the expectations of
`test/test_linebreak.py`.  We evaluate the engine on a concrete
paragraph to exhibit it. -/

/-- A font in which every character is 1 unit wide and 1 unit tall. -/
def unitFont : FontM :=
  { getlength := fun s => (s.length : Int),
    bboxW := fun s => (s.length : Int),
    bboxH := fun _ => 1 }

def unitCtx : RCtx := { getFont := fun _ => unitFont, global := [] }

/-- C2 (refuting evaluation).  The paragraph
`[TextSpan "a", LineBreak, TextSpan "b"]` laid out at width 100 — ample
room — produces a single line holding the text before the break, the
break itself, and the text after the break: the engine never starts a
new line at the `LineBreak`, in contradiction with the claimed forced
close. -/
theorem lineBreak_not_honored :
    (layout_paragraph unitCtx
        { children := [.textSpan "a", .lineBreak, .textSpan "b"] } 100 []).1.lines.map
        (fun l => l.items.map LineItem.node)
      = [[.textSpan "a", .lineBreak, .textSpan "b"]] ∧
    (layout_paragraph unitCtx
        { children := [.textSpan "a", .lineBreak, .textSpan "b"] } 100 []).1.lines.length
      = 1 := by
  constructor <;> rfl

/-! ## C4: measure and render phases agree on a paragraph -/

/-- Sum of line heights of a finished line list. -/
def heightSum (ls : List Line) : Int := (ls.map Line.height).sum

theorem heightSum_append (ls : List Line) (l : Line) :
    heightSum (ls ++ [l]) = heightSum ls + l.height := by
  simp [heightSum]

/-- The running `result["height"]` of `layout_paragraph` always equals
the sum of the heights of the closed lines. -/
theorem placePart_heightInv (availW : Int) (s : LState) (p : LPart)
    (h : s.height = heightSum s.lines) :
    (placePart availW s p).height = heightSum (placePart availW s p).lines := by
  simp only [placePart, addItem, closeLine]
  split <;> simp [heightSum_append, h]

theorem foldl_placePart_heightInv (availW : Int) (parts : List LPart)
    (s : LState) (h : s.height = heightSum s.lines) :
    (parts.foldl (placePart availW) s).height
      = heightSum (parts.foldl (placePart availW) s).lines := by
  induction parts generalizing s with
  | nil => simpa using h
  | cons p ps ih => exact ih _ (placePart_heightInv availW s p h)

theorem placeAtomic_heightInv (ctx : RCtx) (availW : Int) (s : LState)
    (n : Inline) (st : List Style) (h : s.height = heightSum s.lines) :
    (placeAtomic ctx availW s n st).1.height
      = heightSum (placeAtomic ctx availW s n st).1.lines := by
  simp only [placeAtomic, addItem, closeLine]
  split <;> simp [heightSum_append, h]

theorem layoutChildren_heightInv (ctx : RCtx) (availW : Int)
    (ns : List Inline) (s : LState) (st : List Style)
    (h : s.height = heightSum s.lines) :
    (layoutChildren ctx availW ns s st).1.height
      = heightSum (layoutChildren ctx availW ns s st).1.lines := by
  induction ns generalizing s st with
  | nil => simpa using h
  | cons n ns' ih =>
      cases n with
      | textSpan t =>
          simpa [layoutChildren] using
            ih _ st (foldl_placePart_heightInv availW _ s h)
      | lineBreak =>
          simpa [layoutChildren] using
            ih _ _ (placeAtomic_heightInv ctx availW s .lineBreak st h)
      | styled k cs =>
          simpa [layoutChildren] using
            ih _ _ (placeAtomic_heightInv ctx availW s (.styled k cs) st h)

/-- `layout_paragraph`'s `height` entry is the sum of its lines'
heights. -/
theorem layout_paragraph_height (ctx : RCtx) (p : ParagraphN)
    (availW : Int) (st : List Style) :
    (layout_paragraph ctx p availW st).1.height
      = heightSum (layout_paragraph ctx p availW st).1.lines := by
  simp only [layout_paragraph]
  split
  · simp [heightSum]
  · have h := layoutChildren_heightInv ctx availW p.children
      { lines := [], height := 0, cur := [], curW := 0, curH := 0 } st
      (by simp [heightSum])
    split <;> simp [heightSum_append, h]

/-- What the line loop of `Paragraph.render` produces: it walks exactly
the laid-out lines and advances `current_y` by each line's height. -/
theorem renderLines_spec (ctx : RCtx) (ls : List Line) (trace : List Line)
    (maxW y : Int) (st : List Style) :
    (renderLines ctx ls trace maxW y st).1.1 = trace ++ ls ∧
    (renderLines ctx ls trace maxW y st).1.2.2 = y + heightSum ls := by
  induction ls generalizing trace maxW y st with
  | nil => simp [renderLines, heightSum]
  | cons l ls' ih =>
      simp only [renderLines]
      refine ⟨?_, ?_⟩
      · rw [(ih (trace ++ [l]) (max maxW l.width) (y + l.height) _).1]
        simp
      · rw [(ih (trace ++ [l]) (max maxW l.width) (y + l.height) _).2]
        simp [heightSum]
        ring

/-- C4.  For every paragraph and width, the used height returned by
`Paragraph.render` equals `Paragraph.measure_height` at that width, and
the lines realized during rendering (count and heights) are exactly the
ones the stand-alone `layout_paragraph` computes for the same width and
style state. -/
theorem paragraph_render_measure_agree (ctx : RCtx) (p : ParagraphN)
    (availW : Int) (st : List Style) :
    (p.render ctx availW st).1.2.2 = (p.measure_height ctx availW st).1 ∧
    (p.render ctx availW st).1.1 = (layout_paragraph ctx p availW st).1.lines := by
  unfold ParagraphN.render ParagraphN.measure_height
  constructor
  · show (renderLines ctx _ [] 0 0 _).1.2.2 = (layout_paragraph ctx p availW st).1.height
    rw [(renderLines_spec ctx _ [] 0 0 _).2, layout_paragraph_height]
    simp
  · rw [(renderLines_spec ctx _ [] 0 0 _).1]
    simp

/-! ## C1: the greedy wrap invariant -/

/-- The relation between two consecutive laid-out lines: the later line
starts with an item that would have overflowed the earlier line. -/
def lineRel (availW : Int) (l1 l2 : Line) : Prop :=
  ∃ it rest, l2.items = it :: rest ∧ availW < l1.width + it.width

/-- The induction invariant over the mutable locals of
`layout_paragraph`: the closed lines satisfy the wrap relation pairwise;
the pending line, if any, already overflows the last closed line
together with it; and the pending line is non-empty whenever some line
was closed (a close is always followed at once by placing the
overflowing item). -/
structure WrapInv (availW : Int) (s : LState) : Prop where
  chain : List.Chain' (lineRel availW) s.lines
  pend : ∀ l ∈ s.lines.getLast?, ∀ it ∈ s.cur.head?, availW < l.width + it.width
  ne : s.lines ≠ [] → s.cur ≠ []

theorem wrapInv_init (availW : Int) :
    WrapInv availW { lines := [], height := 0, cur := [], curW := 0, curH := 0 } := by
  refine ⟨by simp, by simp, by simp⟩

/-- Appending an overflow-triggering item right after a close keeps the
invariant. -/
theorem wrapInv_close_add (availW : Int) (s : LState) (n : Inline)
    (w h : Int) (inv : WrapInv availW s)
    (hov : availW < s.curW + w) (hne : s.cur ≠ []) :
    WrapInv availW (addItem (closeLine s) n w h) := by
  obtain ⟨it0, rest0, hcur⟩ : ∃ it0 rest0, s.cur = it0 :: rest0 :=
    List.exists_cons_of_ne_nil hne
  refine ⟨?_, ?_, ?_⟩
  · simp only [addItem, closeLine]
    rw [List.chain'_append]
    refine ⟨inv.chain, by simp [List.chain'_singleton], ?_⟩
    intro x hx y hy
    simp only [List.head?_cons, Option.mem_def, Option.some.injEq] at hy
    subst hy
    exact ⟨it0, rest0, by simpa using hcur, inv.pend x hx it0 (by simp [hcur])⟩
  · intro l hl it hit
    simp only [addItem, closeLine, List.nil_append, List.head?_cons,
      Option.mem_def, Option.some.injEq] at hit
    simp only [addItem, closeLine] at hl
    rw [List.getLast?_concat] at hl
    simp only [Option.mem_def, Option.some.injEq] at hl
    subst hl
    subst hit
    simpa using hov
  · intro _
    simp [addItem, closeLine]

/-- Appending an item without closing keeps the invariant. -/
theorem wrapInv_add (availW : Int) (s : LState) (n : Inline) (w h : Int)
    (inv : WrapInv availW s) : WrapInv availW (addItem s n w h) := by
  refine ⟨by simpa [addItem] using inv.chain, ?_, ?_⟩
  · intro l hl it hit
    simp only [addItem] at hl hit
    cases hcur : s.cur with
    | nil =>
        cases hlines : s.lines with
        | nil => simp [hlines] at hl
        | cons a as =>
            exact absurd (inv.ne (by simp [hlines])) (by simp [hcur])
    | cons c cs =>
        rw [hcur] at hit
        simp only [List.cons_append, List.head?_cons, Option.mem_def,
          Option.some.injEq] at hit
        subst hit
        exact inv.pend l hl _ (by simp [hcur])
  · intro h'
    simp only [addItem] at h' ⊢
    simp
theorem placePart_wrapInv (availW : Int) (s : LState) (p : LPart)
    (inv : WrapInv availW s) : WrapInv availW (placePart availW s p) := by
  rw [placePart]
  split
  next hc =>
      exact wrapInv_close_add availW s p.node p.width p.height inv hc.1
        (by simpa [List.isEmpty_iff] using hc.2)
  next => exact wrapInv_add availW s p.node p.width p.height inv

theorem foldl_placePart_wrapInv (availW : Int) (parts : List LPart)
    (s : LState) (inv : WrapInv availW s) :
    WrapInv availW (parts.foldl (placePart availW) s) := by
  induction parts generalizing s with
  | nil => simpa using inv
  | cons p ps ih => exact ih _ (placePart_wrapInv availW s p inv)

theorem placeAtomic_wrapInv (ctx : RCtx) (availW : Int) (s : LState)
    (n : Inline) (st : List Style) (inv : WrapInv availW s) :
    WrapInv availW (placeAtomic ctx availW s n st).1 := by
  rw [placeAtomic]
  simp only [measureWidthI_stack, measureHeightI_stack]
  split
  next hc =>
      have hw : (measureWidthI ctx n availW st).1
          = (measureWidthI ctx n (availW - s.curW) st).1 := by
        rw [measureWidthI_indep ctx n availW (availW - s.curW)]
      exact wrapInv_close_add availW s n _ _ inv (by rw [hw]; exact hc.1)
        (by simpa [List.isEmpty_iff] using hc.2)
  next => exact wrapInv_add availW s n _ _ inv

theorem layoutChildren_wrapInv (ctx : RCtx) (availW : Int)
    (ns : List Inline) (s : LState) (st : List Style)
    (inv : WrapInv availW s) :
    WrapInv availW (layoutChildren ctx availW ns s st).1 := by
  induction ns generalizing s st with
  | nil => simpa using inv
  | cons n ns' ih =>
      cases n with
      | textSpan t =>
          simpa [layoutChildren] using
            ih _ st (foldl_placePart_wrapInv availW _ s inv)
      | lineBreak =>
          simpa [layoutChildren] using
            ih _ _ (placeAtomic_wrapInv ctx availW s .lineBreak st inv)
      | styled k cs =>
          simpa [layoutChildren] using
            ih _ _ (placeAtomic_wrapInv ctx availW s (.styled k cs) st inv)

/-- C1.  For every paragraph and every available width, in the line
sequence produced by the layout engine every line except possibly the
first begins with an item that could not have fit on the previous line:
the previous line's width plus that first item's width exceeds the
available width (first-fit greedy — no line is closed while the next
unit would still have fit). -/
theorem greedy_wrap_invariant (ctx : RCtx) (p : ParagraphN)
    (availW : Int) (st : List Style) :
    List.Chain' (lineRel availW) (layout_paragraph ctx p availW st).1.lines := by
  rw [layout_paragraph]
  split
  · simp
  · have inv := layoutChildren_wrapInv ctx availW p.children
      { lines := [], height := 0, cur := [], curW := 0, curH := 0 } st
      (wrapInv_init availW)
    dsimp only
    split
    next hne =>
        simp only
        rw [List.chain'_append]
        refine ⟨inv.chain, by simp [List.chain'_singleton], ?_⟩
        intro x hx y hy
        simp only [List.head?_cons, Option.mem_def, Option.some.injEq] at hy
        subst hy
        obtain ⟨it0, rest0, hcur⟩ :
            ∃ it0 rest0,
              (layoutChildren ctx availW p.children
                { lines := [], height := 0, cur := [], curW := 0, curH := 0 }
                st).1.cur = it0 :: rest0 :=
          List.exists_cons_of_ne_nil (by simpa [List.isEmpty_iff] using hne)
        exact ⟨it0, rest0, by simpa using hcur,
          inv.pend x hx it0 (by simp [hcur])⟩
    next => exact inv.chain

/-! ## C6: breakable-unit segmentation of a text span -/

/-- Concatenation of a list of strings (a group of consumed tokens). -/
def strJoin : List String → String
  | [] => ""
  | s :: ss => s ++ strJoin ss

theorem strJoin_data (l : List String) :
    (strJoin l).data = (l.map String.data).join := by
  induction l with
  | nil => rfl
  | cons s ss ih => simp [strJoin, String.data_append, ih]

theorem strJoin_concat (l : List String) (t : String) :
    strJoin (l ++ [t]) = strJoin l ++ t := by
  apply String.ext
  simp [strJoin_data, String.data_append]

theorem strJoin_eq_empty (l : List String) :
    strJoin l = "" ↔ ∀ s ∈ l, s = "" := by
  induction l with
  | nil => simp [strJoin]
  | cons s ss ih =>
      simp only [strJoin, List.mem_cons]
      constructor
      · intro h
        have hd := congrArg String.data h
        rw [String.data_append] at hd
        simp only [String.data] at hd
        rw [List.append_eq_nil] at hd
        intro t ht
        rcases ht with rfl | ht
        · exact String.ext hd.1
        · exact (ih.mp (String.ext hd.2)) t ht
      · intro h
        have h1 : s = "" := h s (Or.inl rfl)
        have h2 : strJoin ss = "" := ih.mpr (fun t ht => h t (Or.inr ht))
        rw [h1, h2]
        rfl

/-- The text a layout part carries. -/
def partText (p : LPart) : String := textContent p.node

theorem partText_mkPart (f : FontM) (s : String) :
    partText (mkPart f s) = s := rfl

/-- What one pass of the run loop produces: each emitted part is the
concatenation of a consecutive group of the remaining tokens (prefixed
by the pending accumulation), every emitted part is non-empty, and all
tokens are consumed except possibly a trailing run of empty tokens. -/
theorem layoutRun_spec (f : FontM) (availW : Int) (toks : List String) :
    ∀ (pend : List String) (curLW : Int) (acc : List LPart),
    ∃ (groups : List (List String)) (rest : List String),
      (layoutRun f availW toks (strJoin pend) curLW acc).map partText
        = acc.map partText ++ groups.map strJoin ∧
      groups.join ++ rest = pend ++ toks ∧
      (∀ g ∈ groups, strJoin g ≠ "") ∧
      (∀ t ∈ rest, t = "") := by
  induction toks with
  | nil =>
      intro pend curLW acc
      by_cases h : strJoin pend = ""
      · refine ⟨[], pend, ?_, by simp, by simp, (strJoin_eq_empty pend).mp h⟩
        simp [layoutRun, h]
      · refine ⟨[pend], [], ?_, by simp, ?_, by simp⟩
        · simp [layoutRun, h, partText_mkPart]
        · simpa using h
  | cons tok toks ih =>
      intro pend curLW acc
      rw [layoutRun]
      by_cases hc : curLW + f.getlength (strJoin pend ++ tok) > availW ∧ strJoin pend ≠ ""
      · rw [if_pos hc]
        obtain ⟨groups, rest, h1, h2, h3, h4⟩ :=
          ih [tok] 0 (acc ++ [mkPart f (strJoin pend)])
        have htok : strJoin [tok] = tok := by
          simp [strJoin]
        rw [htok] at h1
        refine ⟨pend :: groups, rest, ?_, ?_, ?_, h4⟩
        · rw [h1]
          simp [partText_mkPart]
        · simp only [List.join_cons, List.append_assoc, h2]
          simp
        · intro g hg
          rcases List.mem_cons.mp hg with rfl | hg
          · exact hc.2
          · exact h3 g hg
      · rw [if_neg hc]
        have htest : strJoin pend ++ tok = strJoin (pend ++ [tok]) :=
          (strJoin_concat pend tok).symm
        rw [htest]
        obtain ⟨groups, rest, h1, h2, h3, h4⟩ := ih (pend ++ [tok]) curLW acc
        refine ⟨groups, rest, h1, ?_, h3, h4⟩
        rw [h2]
        simp

/-- C6.  `TextSpan` segmentation.  First half: a run containing a
CJK-range character is dispatched to the per-character layout, whose
parts split the run only at character boundaries and cover every
character.  Second half: a run with no CJK character is split only at
the space-delimited word-token boundaries, where each separating space
is retained at the end of the preceding word token (`spaceTokens`);
every token is consumed except possibly a trailing empty token, and
every emitted part is non-empty. -/
theorem textspan_segmentation :
    (∀ (ctx : RCtx) (availW curLW : Int) (st : List Style) (s : String),
      containsCJK s = true →
        layoutText ctx availW curLW st s = layoutCjkText ctx availW curLW st s ∧
        ∃ groups : List (List String),
          groups.join = s.data.map (fun c => String.mk [c]) ∧
          (layoutCjkText ctx availW curLW st s).map partText = groups.map strJoin ∧
          ∀ g ∈ groups, strJoin g ≠ "") ∧
    (∀ (ctx : RCtx) (availW curLW : Int) (st : List Style) (s : String),
      containsCJK s = false →
        ∃ (groups : List (List String)) (rest : List String),
          groups.join ++ rest = spaceTokens s ∧
          (layoutText ctx availW curLW st s).map partText = groups.map strJoin ∧
          (∀ g ∈ groups, strJoin g ≠ "") ∧
          (∀ t ∈ rest, t = "")) := by
  constructor
  · intro ctx availW curLW st s hcjk
    have hs : s ≠ "" := by
      intro e
      subst e
      simp [containsCJK] at hcjk
    constructor
    · simp [layoutText, hs, hcjk]
    · have hmain := layoutRun_spec (ctx.curFont st) availW
        (s.data.map (fun c => String.mk [c])) [] curLW []
      obtain ⟨groups, rest, h1, h2, h3, h4⟩ := hmain
      have hrest : rest = [] := by
        cases rest with
        | nil => rfl
        | cons t ts =>
            exfalso
            have ht : t ∈ s.data.map (fun c => String.mk [c]) := by
              rw [List.nil_append] at h2
              rw [← h2]
              exact List.mem_append_right _ (List.mem_cons_self t ts)
            obtain ⟨c, _, hct⟩ := List.mem_map.mp ht
            have := h4 t (List.mem_cons_self t ts)
            rw [← hct] at this
            have := congrArg String.data this
            simp at this
      refine ⟨groups, ?_, ?_, h3⟩
      · rw [hrest] at h2
        simpa using h2
      · simpa [layoutCjkText] using h1
  · intro ctx availW curLW st s hcjk
    by_cases hs : s = ""
    · subst hs
      refine ⟨[], [""], ?_, ?_, by simp, by simp⟩
      · simp [spaceTokens, pySplitSpace, splitSpaces]
      · simp [layoutText]
    · have hmain := layoutRun_spec (ctx.curFont st) availW (spaceTokens s) [] curLW []
      obtain ⟨groups, rest, h1, h2, h3, h4⟩ := hmain
      refine ⟨groups, rest, by simpa using h2, ?_, h3, h4⟩
      simpa [layoutText, hs, hcjk] using h1

/-- C6 witness: the two halves applied at concrete inputs — a pure-CJK
run and a plain ASCII run — with the CJK tests discharged by
computation. -/
theorem textspan_segmentation_witness :
    (layoutText unitCtx 3 0 [] "你好" = layoutCjkText unitCtx 3 0 [] "你好" ∧
      ∃ groups : List (List String),
        groups.join = "你好".data.map (fun c => String.mk [c]) ∧
        (layoutCjkText unitCtx 3 0 [] "你好").map partText = groups.map strJoin ∧
        ∀ g ∈ groups, strJoin g ≠ "") ∧
    (∃ (groups : List (List String)) (rest : List String),
      groups.join ++ rest = spaceTokens "hello world" ∧
      (layoutText unitCtx 3 0 [] "hello world").map partText = groups.map strJoin ∧
      (∀ g ∈ groups, strJoin g ≠ "") ∧
      (∀ t ∈ rest, t = "")) :=
  ⟨textspan_segmentation.1 unitCtx 3 0 [] "你好" (by decide),
   textspan_segmentation.2 unitCtx 3 0 [] "hello world" (by decide)⟩

/-! ## C5: list index renumbering on insertion
(`core/nodes/block.py`, `List` / `ListItem`)

`MDNode.add` itself is absent from `base.py` (only `add_child` is);
every caller in the repository uses `add` where `add_child`'s
append-and-own behavior is the only possible meaning.  Modelled from the
spec: a node "holds an ordered sequence of children (insertion order
significant)", so `add` appends the child, as `add_child` does. -/

/-- `ListItem` (block.py lines 172-252): the optional 1-based index and
the owned content. -/
structure MDListItem where
  index : Option Nat
  content : List Inline
deriving Repr

/-- The possible arguments of `List.add` / `List(*items)`: an existing
`ListItem`, a plain string, or another (non-item) node. -/
inductive LChild where
  | item (it : MDListItem)
  | str (s : String)
  | node (n : Inline)

/-- `ListItem(content, index)` for non-item content: a string becomes a
`TextSpan` child, a node is added as is (block.py lines 175-190). -/
def mkListItem (c : LChild) (idx : Option Nat) : MDListItem :=
  match c with
  | .str s => { index := idx, content := [.textSpan s] }
  | .node n => { index := idx, content := [n] }
  | .item it => it

/-- `List` (block.py lines 255-332). -/
structure MDList where
  ordered : Bool
  children : List MDListItem
deriving Repr

/-- `List.add` (block.py lines 282-297): wrap non-items into a
`ListItem` carrying index `len(children)+1` (ordered) or none
(unordered); for items, overwrite their index the same way; then append
(`super().add`, spec-modelled as `add_child`'s append). -/
def MDList.add (l : MDList) (c : LChild) : MDList :=
  match c with
  | .item it =>
      let it' := { it with
        index := if l.ordered then some (l.children.length + 1) else none }
      { l with children := l.children ++ [it'] }
  | c =>
      { l with children := l.children ++
          [mkListItem c (if l.ordered then some (l.children.length + 1) else none)] }

/-- The `for i, item in enumerate(items)` loop of `List.__init__`
(block.py lines 265-280): pre-set an index by enumeration position and
hand the item to `self.add` (which sets it again). -/
def mdListInitLoop (ordered : Bool) : List LChild → Nat → MDList → MDList
  | [], _, l => l
  | c :: cs, i, l =>
      let l' :=
        match c with
        | .str s => l.add (.item (mkListItem (.str s)
            (if ordered then some (i + 1) else none)))
        | .item it => l.add (.item { it with
            index := if ordered then some (i + 1) else none })
        | .node n => l.add (.item (mkListItem (.node n)
            (if ordered then some (i + 1) else none)))
      mdListInitLoop ordered cs (i + 1) l'

/-- `List(*items, ordered=...)` (block.py lines 258-280). -/
def MDList.init (items : List LChild) (ordered : Bool) : MDList :=
  mdListInitLoop ordered items 0 { ordered := ordered, children := [] }

/-- The explicit renumber loop of `ListItem.__add__`
(block.py lines 244-247): `item.index = i + 1` over the enumeration. -/
def renumberItems (items : List MDListItem) : List MDListItem :=
  items.enum.map (fun p => { p.2 with index := some (p.1 + 1) })

/-- `ListItem.__add__` (block.py lines 236-252): build a list whose
orderedness copies whether the left item has an index, add both items,
and renumber if ordered. -/
def MDListItem.addItem (a b : MDListItem) : MDList :=
  let ln := ((MDList.mk a.index.isSome []).add (.item a)).add (.item b)
  if ln.ordered then { ln with children := renumberItems ln.children } else ln

/-- `List.__add__` with a `List` argument (block.py lines 325-329):
every child of the right list is re-added to the left one. -/
def MDList.concat (l other : MDList) : MDList :=
  other.children.foldl (fun acc it => acc.add (.item it)) l

/-- Any sequence of insertions expressible with the source's operations:
construction, `add`, `ListItem + ListItem`, and list merging. -/
inductive ListExpr where
  | init (ordered : Bool) (items : List LChild)
  | addOp (e : ListExpr) (c : LChild)
  | itemConcat (a b : MDListItem)
  | listConcat (a b : ListExpr)

def evalListExpr : ListExpr → MDList
  | .init o items => MDList.init items o
  | .addOp e c => (evalListExpr e).add c
  | .itemConcat a b => a.addItem b
  | .listConcat a b => (evalListExpr a).concat (evalListExpr b)

/-- The index invariant: an ordered list's children carry `1..N` in
order, an unordered list's children carry no index. -/
def goodList (l : MDList) : Prop :=
  l.children.map MDListItem.index =
    if l.ordered = true then (List.range l.children.length).map (fun i => some (i + 1))
    else List.replicate l.children.length none

theorem goodList_add (l : MDList) (c : LChild) (h : goodList l) :
    goodList (l.add c) := by
  have key : ∀ it' : MDListItem,
      it'.index = (if l.ordered = true then some (l.children.length + 1) else none) →
      goodList { l with children := l.children ++ [it'] } := by
    intro it' hidx
    unfold goodList at h ⊢
    simp only [List.map_append, List.length_append, List.map_cons, List.map_nil,
      List.length_cons, List.length_nil, hidx, h]
    by_cases ho : l.ordered = true <;>
      simp [ho, List.range_succ, List.replicate_succ']
  cases c with
  | item it => exact key _ (by simp [MDList.add])
  | str s =>
      apply key (mkListItem (.str s)
        (if l.ordered = true then some (l.children.length + 1) else none))
      simp [mkListItem]
  | node n =>
      apply key (mkListItem (.node n)
        (if l.ordered = true then some (l.children.length + 1) else none))
      simp [mkListItem]

theorem map_index_renumber (items : List MDListItem) :
    (renumberItems items).map MDListItem.index
      = (List.range items.length).map (fun i => some (i + 1)) := by
  unfold renumberItems
  rw [List.map_map]
  have h1 : (MDListItem.index ∘ fun p : Nat × MDListItem =>
      { p.2 with index := some (p.1 + 1) }) = fun p => some (p.1 + 1) := by
    funext p
    rfl
  rw [h1]
  have h2 : (fun p : Nat × MDListItem => some (p.1 + 1))
      = (fun i => some (i + 1)) ∘ Prod.fst := rfl
  rw [h2, ← List.map_map, List.enum_map_fst]

theorem length_renumber (items : List MDListItem) :
    (renumberItems items).length = items.length := by
  simp [renumberItems]

theorem goodList_empty (o : Bool) : goodList { ordered := o, children := [] } := by
  simp [goodList]

theorem goodList_itemConcat (a b : MDListItem) : goodList (a.addItem b) := by
  unfold MDListItem.addItem
  have hgood : goodList (((MDList.mk a.index.isSome []).add (.item a)).add (.item b)) :=
    goodList_add _ _ (goodList_add _ _ (goodList_empty _))
  dsimp only
  split
  next ho =>
      unfold goodList
      simp only [length_renumber, map_index_renumber]
      simp [ho]
  next => exact hgood

theorem goodList_concat (l other : MDList) (h : goodList l) :
    goodList (l.concat other) := by
  unfold MDList.concat
  induction other.children generalizing l with
  | nil => simpa using h
  | cons it its ih => exact ih _ (goodList_add l (.item it) h)

theorem goodList_initLoop (ordered : Bool) (cs : List LChild) (i : Nat)
    (l : MDList) (h : goodList l) :
    goodList (mdListInitLoop ordered cs i l) := by
  induction cs generalizing i l with
  | nil => simpa [mdListInitLoop] using h
  | cons c cs' ih =>
      cases c with
      | str s => exact ih _ _ (goodList_add l _ h)
      | item it => exact ih _ _ (goodList_add l _ h)
      | node n => exact ih _ _ (goodList_add l _ h)

/-- C5.  Under every sequence of insertions the source offers —
`List(...)` construction, `List.add`, `ListItem + ListItem`, and list
merging — an ordered list's items carry sequential indices `1..N` in
child order and an unordered list's items carry no index, regardless of
any index an item carried before insertion. -/
theorem list_renumber_invariant (e : ListExpr) : goodList (evalListExpr e) := by
  induction e with
  | init o items => exact goodList_initLoop o items 0 _ (goodList_empty o)
  | addOp e c ih => exact goodList_add _ c ih
  | itemConcat a b => exact goodList_itemConcat a b
  | listConcat a b iha ihb => exact goodList_concat _ _ iha

/-! ## C9: node concatenation (`MDNode.__add__`, base.py lines 17-34)

To make the mutation visible, nodes live in a store indexed by
identifier; `add_child` (base.py lines 11-15) sets the child's parent
and appends the child to the parent's children.  `__add__` first
auto-wraps a string operand into a `TextSpan`, then raises on anything
that is not a node — before creating the document or attaching anything
— and otherwise builds a fresh `DocumentNode` with the two operands as
its children. -/

inductive NodeKind where
  | document
  | textSpanK (s : String)
  | otherKind
deriving DecidableEq, Repr

structure NodeRec where
  kind : NodeKind
  parent : Option Nat
  childIds : List Nat
deriving DecidableEq, Repr

abbrev Store := List NodeRec

/-- Allocate a fresh node, returning its id. -/
def newNode (st : Store) (k : NodeKind) : Store × Nat :=
  (st ++ [{ kind := k, parent := none, childIds := [] }], st.length)

def modifyAt : Store → Nat → (NodeRec → NodeRec) → Store
  | [], _, _ => []
  | r :: rs, 0, f => f r :: rs
  | r :: rs, n + 1, f => r :: modifyAt rs n f

/-- `MDNode.add_child`: `child.parent = self; self.children.append(child)`. -/
def add_child (st : Store) (selfId childId : Nat) : Store :=
  let st1 := modifyAt st childId (fun r => { r with parent := some selfId })
  modifyAt st1 selfId (fun r => { r with childIds := r.childIds ++ [childId] })

/-- A Python value handed to `__add__`: a node, a string, or a value of
any unsupported type (represented by an integer). -/
inductive PyVal where
  | node (id : Nat)
  | str (s : String)
  | intVal (k : Int)

inductive MDError where
  | invalidInput
deriving DecidableEq, Repr

/-- `MDNode.__add__`: wrap a string operand as `TextSpan(other)`; raise
on a non-node non-string operand before touching anything; otherwise
create a `DocumentNode` and `add_child` both operands to it in order. -/
def mdAdd (st : Store) (selfId : Nat) (other : PyVal) :
    Except MDError Nat × Store :=
  match other with
  | .str s =>
      let r1 := newNode st (.textSpanK s)
      let r2 := newNode r1.1 .document
      let st3 := add_child r2.1 r2.2 selfId
      let st4 := add_child st3 r2.2 r1.2
      (.ok r2.2, st4)
  | .node oid =>
      let r2 := newNode st .document
      let st3 := add_child r2.1 r2.2 selfId
      let st4 := add_child st3 r2.2 oid
      (.ok r2.2, st4)
  | .intVal _ => (.error .invalidInput, st)

theorem modifyAt_length (st : Store) (i : Nat) (f : NodeRec → NodeRec) :
    (modifyAt st i f).length = st.length := by
  induction st generalizing i with
  | nil => rfl
  | cons r rs ih =>
      cases i with
      | zero => rfl
      | succ n => simpa [modifyAt] using ih n

theorem modifyAt_get_ne (st : Store) (i j : Nat) (f : NodeRec → NodeRec)
    (h : j ≠ i) : (modifyAt st i f)[j]? = st[j]? := by
  induction st generalizing i j with
  | nil => rfl
  | cons r rs ih =>
      cases i with
      | zero =>
          cases j with
          | zero => exact absurd rfl h
          | succ m => simp [modifyAt]
      | succ n =>
          cases j with
          | zero => simp [modifyAt]
          | succ m => simpa [modifyAt] using ih n m (fun e => h (by rw [e]))

theorem modifyAt_get_eq (st : Store) (i : Nat) (f : NodeRec → NodeRec) :
    (modifyAt st i f)[i]? = (st[i]?).map f := by
  induction st generalizing i with
  | nil => rfl
  | cons r rs ih =>
      cases i with
      | zero => simp [modifyAt]
      | succ n => simpa [modifyAt] using ih n

theorem store_get_snoc_self (l : Store) (a : NodeRec) :
    (l ++ [a])[l.length]? = some a := by
  simp

theorem store_get_snoc_lt (l : Store) (a : NodeRec) (j : Nat)
    (h : j < l.length) : (l ++ [a])[j]? = l[j]? := by
  rw [List.getElem?_append, if_pos h]

theorem store_get_snoc2_mid (st : Store) (a b : NodeRec) :
    ((st ++ [a]) ++ [b])[st.length]? = some a := by
  rw [store_get_snoc_lt _ _ _ (by simp)]
  exact store_get_snoc_self st a

theorem store_get_snoc2_top (st : Store) (a b : NodeRec) :
    ((st ++ [a]) ++ [b])[st.length + 1]? = some b := by
  have h := store_get_snoc_self (st ++ [a]) b
  simpa using h

/-- C9.  Node concatenation: a string operand is auto-wrapped as a
`TextSpan` and the concatenation succeeds, producing a fresh
`DocumentNode` container whose children are the left operand followed by
the wrapped span (which now has the container as parent); any operand
that is neither a node nor a string raises `InvalidInput` and leaves the
whole store — every node's children and parent — untouched. -/
theorem node_concat_spec :
    (∀ (st : Store) (selfId : Nat) (s : String), selfId < st.length →
      (mdAdd st selfId (.str s)).1 = .ok (st.length + 1) ∧
      (mdAdd st selfId (.str s)).2[st.length + 1]? =
        some { kind := .document, parent := none, childIds := [selfId, st.length] } ∧
      (mdAdd st selfId (.str s)).2[st.length]? =
        some { kind := .textSpanK s, parent := some (st.length + 1), childIds := [] }) ∧
    (∀ (st : Store) (selfId : Nat) (k : Int),
      mdAdd st selfId (.intVal k) = (.error .invalidInput, st)) := by
  constructor
  · intro st selfId s hself
    have hne1 : selfId ≠ st.length := Nat.ne_of_lt hself
    have hne2 : selfId ≠ st.length + 1 := Nat.ne_of_lt (Nat.lt_succ_of_lt hself)
    have hne3 : st.length ≠ st.length + 1 := Nat.ne_of_lt (Nat.lt_succ_self _)
    refine ⟨by simp [mdAdd, newNode], ?_, ?_⟩
    · simp only [mdAdd, newNode, add_child, List.length_append, List.length_cons,
        List.length_nil, Nat.zero_add]
      rw [modifyAt_get_eq, modifyAt_get_ne _ _ _ _ (Ne.symm hne3),
        modifyAt_get_eq, modifyAt_get_ne _ _ _ _ (Ne.symm hne2),
        store_get_snoc2_top]
      rfl
    · simp only [mdAdd, newNode, add_child, List.length_append, List.length_cons,
        List.length_nil, Nat.zero_add]
      rw [modifyAt_get_ne _ _ _ _ hne3, modifyAt_get_eq,
        modifyAt_get_ne _ _ _ _ hne3, modifyAt_get_ne _ _ _ _ (Ne.symm hne1),
        store_get_snoc2_mid]
      rfl
  · intro st selfId k
    rfl

/-! ## The Markdown parser (`processor.py`)

The regex patterns of `MarkdownProcessor` are translated into explicit
character-list matchers with the exact semantics the patterns have under
CPython `re` (anchored `match`, greedy `\s+` runs followed by a lazy
`(.*?)$` tail, leftmost-first alternation, lazy shortest closing
delimiter, `finditer` resuming after each match).  The outer
`while i < len(lines)` loop and the inline recursion are driven by a
fuel argument that the entry points seed with more steps than the loops
can take. `root.add` / `paragraph.add` appear in the source although
`MDNode` only defines `add_child`; modelled from the spec ("a node
holds an ordered sequence of children, insertion order significant"),
`add` appends the child exactly as `add_child` does. -/

/-- Python `\s` on the ASCII range. -/
def pyIsSpace (c : Char) : Bool :=
  c = ' ' || c = '\t' || c = '\n' || c = '\r' || c = '\x0b' || c = '\x0c'

/-- Python `str.strip()`. -/
def pyStrip (s : String) : String :=
  String.mk (((s.data.dropWhile pyIsSpace).reverse.dropWhile pyIsSpace).reverse)

/-- `text.split("\n")` (processor.py line 55). -/
def splitOnNl : List Char → List (List Char)
  | [] => [[]]
  | c :: cs =>
      let r := splitOnNl cs
      if c = '\n' then [] :: r
      else
        match r with
        | w :: ws => (c :: w) :: ws
        | [] => [[c]]

def startsWithChars : List Char → List Char → Bool
  | [], _ => true
  | _ :: _, [] => false
  | d :: ds, c :: cs => d = c && startsWithChars ds cs

/-- `heading_pattern = ^(#{1,6})\s+(.*?)$`: one to six leading hashes,
at least one whitespace, and the rest (after the greedy whitespace run)
as group 2. -/
def headingMatch (line : String) : Option (Nat × String) :=
  let cs := line.data
  let k := (cs.takeWhile (fun c => c = '#')).length
  if 1 ≤ k ∧ k ≤ 6 then
    match cs.drop k with
    | c :: rest =>
        if pyIsSpace c then some (k, String.mk ((c :: rest).dropWhile pyIsSpace))
        else none
    | [] => none
  else none

/-- The repetition tail of `hr_pattern = ^([-*_])\s*(\1\s*){2,}$`: the
rest of the line may hold only the marker character and whitespace, and
the total marker count (argument `n` counts those already seen) must
reach three. -/
def hrScan (c : Char) : List Char → Nat → Bool
  | [], n => decide (3 ≤ n)
  | x :: xs, n =>
      if x = c then hrScan c xs (n + 1)
      else if pyIsSpace x then hrScan c xs n
      else false

def hrMatch (line : String) : Bool :=
  match line.data with
  | c :: rest => (c = '-' || c = '*' || c = '_') && hrScan c rest 1
  | [] => false

/-- `unordered_list_pattern = ^(\s*)([-*+])\s+(.*?)$` →
(indent length, marker, content). -/
def ulMatch (line : String) : Option (Nat × Char × String) :=
  let cs := line.data
  let ws := cs.takeWhile pyIsSpace
  match cs.drop ws.length with
  | m :: r2 =>
      if m = '-' || m = '*' || m = '+' then
        match r2 with
        | c :: r3 =>
            if pyIsSpace c then some (ws.length, m, String.mk ((c :: r3).dropWhile pyIsSpace))
            else none
        | [] => none
      else none
  | [] => none

/-- `ordered_list_pattern = ^(\s*)(\d+)\.?\s+(.*?)$` →
(indent length, marker digits, content). -/
def olMatch (line : String) : Option (Nat × List Char × String) :=
  let cs := line.data
  let ws := cs.takeWhile pyIsSpace
  let afterWs := cs.drop ws.length
  let digits := afterWs.takeWhile Char.isDigit
  if digits.isEmpty then none
  else
    let afterDigits := afterWs.drop digits.length
    let afterDot :=
      match afterDigits with
      | '.' :: r => r
      | r => r
    match afterDot with
    | c :: r3 =>
        if pyIsSpace c then some (ws.length, digits, String.mk ((c :: r3).dropWhile pyIsSpace))
        else none
    | [] => none

/-- `blockquote_pattern = ^>\s*(.*?)$` → group 1. -/
def bqMatch (line : String) : Option String :=
  match line.data with
  | '>' :: rest => some (String.mk (rest.dropWhile pyIsSpace))
  | _ => none

/-- `_is_block_start` (processor.py lines 265-273). -/
def isBlockStart (line : String) : Bool :=
  (headingMatch line).isSome || hrMatch line || (ulMatch line).isSome ||
  (olMatch line).isSome || (bqMatch line).isSome

/-- `re.search(r"\*\*|__|_|\*|`|~~", text)`: any `*`, `_`, backtick, or
a double tilde. -/
def hasInlineMarker : List Char → Bool
  | [] => false
  | c :: rest =>
      c = '*' || c = '_' || c = '`' || (c = '~' && rest.head? = some '~') ||
      hasInlineMarker rest

/-- Earliest occurrence of a closing delimiter (the lazy `(.*?)close`):
content before it and remainder after it. -/
def findDelim (d : List Char) : List Char → Option (List Char × List Char)
  | [] => none
  | c :: cs =>
      if startsWithChars d (c :: cs) then some ([], (c :: cs).drop d.length)
      else
        match findDelim d cs with
        | some (pre, rest) => some (c :: pre, rest)
        | none => none

/-- One regex match attempt at the current position: opening delimiter,
then the lazy content up to the earliest closing delimiter. -/
def tryOpenClose (o cl : List Char) (s : List Char) : Option (List Char × List Char) :=
  if startsWithChars o s then findDelim cl (s.drop o.length) else none

/-- What one `finditer` step yields: the text before the match, the two
capture groups, and the text after the match. -/
structure InlineMatch where
  pre : List Char
  g1 : Option (List Char)
  g2 : Option (List Char)
  rest : List Char

/-- Leftmost match of a one-branch pattern `open(.*?)close`
(code spans, strikethrough). -/
def nextMatchOne (o cl : List Char) : List Char → Option InlineMatch
  | [] => none
  | c :: cs =>
      match tryOpenClose o cl (c :: cs) with
      | some (content, rest) => some ⟨[], some content, none, rest⟩
      | none =>
          match nextMatchOne o cl cs with
          | some m => some ⟨c :: m.pre, m.g1, m.g2, m.rest⟩
          | none => none

/-- Leftmost match of a two-branch pattern
`o1(.*?)c1|o2(.*?)c2` (bold, italic): at each position branch one is
tried before branch two. -/
def nextMatchTwo (o1 c1 o2 c2 : List Char) : List Char → Option InlineMatch
  | [] => none
  | c :: cs =>
      match tryOpenClose o1 c1 (c :: cs) with
      | some (content, rest) => some ⟨[], some content, none, rest⟩
      | none =>
          match tryOpenClose o2 c2 (c :: cs) with
          | some (content, rest) => some ⟨[], none, some content, rest⟩
          | none =>
              match nextMatchTwo o1 c1 o2 c2 cs with
              | some m => some ⟨c :: m.pre, m.g1, m.g2, m.rest⟩
              | none => none

/-- `match.group(1) or (match.group(2) if ... else None)`: Python `or`
falls through on an empty (falsy) first group. -/
def pyOrGroups (g1 g2 : Option (List Char)) : Option (List Char) :=
  match g1 with
  | some s => if s.isEmpty then g2 else some s
  | none => g2

/-- `node_class(content)`: the `StyledText` constructor wraps the
matched string in a `TextSpan` child.  (With `None` content — both
groups empty — the source's `StyledText.__init__` would raise; that
input shape is represented by an empty child list.) -/
def mkStyledNode (cls : SKind) (m : InlineMatch) : Inline :=
  match pyOrGroups m.g1 m.g2 with
  | some content => .styled cls [.textSpan (String.mk content)]
  | none => .styled cls []

/-- The `for match in pattern.finditer(text)` loop after the first
match: recurse into the unmatched gap before each further match, emit
the styled node, and finally recurse into the tail after the last
match when it is non-empty (processor.py lines 212-232). -/
def styledTail (nm : List Char → Option InlineMatch) (cls : SKind)
    (parseRec : List Char → List Inline) : Nat → List Char → List Inline
  | 0, _ => []
  | fuel + 1, rest =>
      match nm rest with
      | none => if rest.isEmpty then [] else parseRec rest
      | some m =>
          (if m.pre.isEmpty then [] else parseRec m.pre) ++
            (mkStyledNode cls m :: styledTail nm cls parseRec fuel m.rest)

/-- One `(pattern, node_class)` attempt of `_parse_inline_styles`:
`none` when the pattern never matches (`found_match` stays false). -/
def runPattern (nm : List Char → Option InlineMatch) (cls : SKind)
    (parseRec : List Char → List Inline) (fuel : Nat)
    (text : List Char) : Option (List Inline) :=
  match nm text with
  | none => none
  | some m =>
      some ((if m.pre.isEmpty then [] else parseRec m.pre) ++
        (mkStyledNode cls m :: styledTail nm cls parseRec fuel m.rest))

/-- `_parse_inline_styles` (processor.py lines 192-235): no marker —
plain text span; otherwise try code, strikethrough, bold, italic in
that order, the first pattern with a match winning; no match at all —
plain text span. -/
def parseInline : Nat → List Char → List Inline
  | 0, text => [.textSpan (String.mk text)]
  | fuel + 1, text =>
      if ¬ hasInlineMarker text then [.textSpan (String.mk text)]
      else
        match runPattern (nextMatchOne ['`'] ['`']) .code (parseInline fuel)
            (text.length + 1) text with
        | some r => r
        | none =>
            match runPattern (nextMatchOne ['~', '~'] ['~', '~']) .strike
                (parseInline fuel) (text.length + 1) text with
            | some r => r
            | none =>
                match runPattern (nextMatchTwo ['*', '*'] ['*', '*'] ['_', '_'] ['_', '_'])
                    .bold (parseInline fuel) (text.length + 1) text with
                | some r => r
                | none =>
                    match runPattern (nextMatchTwo ['*'] ['*'] ['_'] ['_'])
                        .italic (parseInline fuel) (text.length + 1) text with
                    | some r => r
                    | none => [.textSpan (String.mk text)]

/-- The per-line loop of `_create_paragraph` (processor.py lines
175-190): inline nodes of each line, a `LineBreak` after every line but
the last. -/
def paraChildren (fuel : Nat) : List String → List Inline
  | [] => []
  | [l] => parseInline fuel l.data
  | l :: ls => parseInline fuel l.data ++ (.lineBreak :: paraChildren fuel ls)

/-- Block-level nodes as the parser produces them (`core/nodes/block.py`).
A `Blockquote` owns a single `DocumentNode` child; the constructor
argument here is that document's block list. -/
inductive Block where
  | heading (text : String) (level : Nat)
  | paragraphB (children : List Inline)
  | horizontalRule
  | listB (l : MDList)
  | blockquote (doc : List Block)
deriving Repr

/-- `Heading.__init__` (block.py lines 61-64): the level is clamped to
1..6. -/
def mkHeading (text : String) (level : Nat) : Block :=
  .heading text (max 1 (min level 6))

def digitsToNat : List Char → Nat → Nat
  | [], acc => acc
  | c :: cs, acc => digitsToNat cs (acc * 10 + (c.toNat - 48))

def modLastItem : List MDListItem → (MDListItem → MDListItem) → List MDListItem
  | [], _ => []
  | [x], f => [f x]
  | x :: xs, f => x :: modLastItem xs f

/-- The `while` loop of `_parse_list` (processor.py lines 141-171):
blank lines are skipped between items (and end the list otherwise); a
matching line starts a new item — whose parsed marker index, for an
ordered list, is immediately overwritten by `List.add`'s renumbering —
and a line indented by at least `base_indent + 2` extends the current
item (`current_item.add`, the appended `TextSpan` landing in the last
item). -/
def parseListLoop (lines : List String) (ordered : Bool) (baseIndent : Nat) :
    Nat → Nat → MDList → Bool → MDList × Nat
  | 0, i, l, _ => (l, i)
  | fuel + 1, i, l, hasCur =>
      if i < lines.length then
        let line := lines.getD i ""
        if pyStrip line = "" then
          if i + 1 < lines.length ∧
              (if ordered then (olMatch (lines.getD (i + 1) "")).isSome
               else (ulMatch (lines.getD (i + 1) "")).isSome) then
            parseListLoop lines ordered baseIndent fuel (i + 1) l hasCur
          else (l, i + 1)
        else
          let mo : Option (Option Nat × String) :=
            if ordered then
              (olMatch line).map (fun m => (some (digitsToNat m.2.1 0), m.2.2))
            else (ulMatch line).map (fun m => (none, m.2.2))
          match mo with
          | some (idx, content) =>
              let it0 : MDListItem := { index := none, content := [.textSpan content] }
              let it1 :=
                match idx with
                | some v => { it0 with index := some v }
                | none => it0
              parseListLoop lines ordered baseIndent fuel (i + 1) (l.add (.item it1)) true
          | none =>
              if startsWithChars (List.replicate (baseIndent + 2) ' ') line.data ∧ hasCur then
                let content := pyStrip line
                let extendLast := fun (it : MDListItem) =>
                  { it with content := it.content ++ [.textSpan content] }
                let l' := { l with children := modLastItem l.children extendLast }
                parseListLoop lines ordered baseIndent fuel (i + 1) l' true
              else (l, i)
      else (l, i)

/-- `_parse_list` (processor.py lines 126-173). -/
def parseList (lines : List String) (startIdx : Nat) (ordered : Bool)
    (fuel : Nat) : MDList × Nat :=
  let firstLine := lines.getD startIdx ""
  let baseIndent :=
    if ordered then (olMatch firstLine).map (fun m => m.1)
    else (ulMatch firstLine).map (fun m => m.1)
  match baseIndent with
  | none => ({ ordered := ordered, children := [] }, startIdx + 1)
  | some bi =>
      parseListLoop lines ordered bi fuel startIdx
        { ordered := ordered, children := [] } false

/-- The quote-line collection loop of `_parse_blockquote`
(processor.py lines 241-253): blank lines contribute an empty line, `>`
lines contribute their group 1. -/
def collectBq (lines : List String) : Nat → Nat → List String × Nat
  | 0, i => ([], i)
  | fuel + 1, i =>
      if i < lines.length ∧
          (pyStrip (lines.getD i "") = "" ∨ (bqMatch (lines.getD i "")).isSome) then
        let entry :=
          if pyStrip (lines.getD i "") = "" then ""
          else (bqMatch (lines.getD i "")).getD ""
        let r := collectBq lines fuel (i + 1)
        (entry :: r.1, r.2)
      else ([], i)

def joinWithNl : List String → String
  | [] => ""
  | [l] => l
  | l :: ls => l ++ "\n" ++ joinWithNl ls

/-- The paragraph-merging lookahead of `parse` (processor.py lines
109-117): absorb following non-blank, non-block-starting lines. -/
def collectPara (lines : List String) : Nat → Nat → List String × Nat
  | 0, j => ([], j)
  | fuel + 1, j =>
      if j < lines.length ∧ pyStrip (lines.getD j "") ≠ "" ∧
          ¬ isBlockStart (pyStrip (lines.getD j "")) then
        let r := collectPara lines fuel (j + 1)
        (pyStrip (lines.getD j "") :: r.1, r.2)
      else ([], j)

/-- The main `while i < len(lines)` dispatch of `MarkdownProcessor.parse`
(processor.py lines 49-124), fuel-driven.  `_parse_blockquote`
(processor.py lines 237-263) is inlined in the `>` branch: collect the
quote block, join it, recursively parse the joined text as a nested
document. -/
def parseLines (lines : List String) : Nat → Nat → List Block
  | 0, _ => []
  | fuel + 1, i =>
      if i < lines.length then
        let line := pyStrip (lines.getD i "")
        if line = "" then parseLines lines fuel (i + 1)
        else
          match headingMatch line with
          | some (k, text) => mkHeading (pyStrip text) k :: parseLines lines fuel (i + 1)
          | none =>
            if hrMatch line then .horizontalRule :: parseLines lines fuel (i + 1)
            else
              match ulMatch line with
              | some _ =>
                  let r := parseList lines i false (fuel + 1)
                  .listB r.1 :: parseLines lines fuel r.2
              | none =>
                match olMatch line with
                | some _ =>
                    let r := parseList lines i true (fuel + 1)
                    .listB r.1 :: parseLines lines fuel r.2
                | none =>
                  match bqMatch line with
                  | some _ =>
                      let rq := collectBq lines (lines.length + 1) i
                      let innerLines :=
                        (splitOnNl (joinWithNl rq.1).data).map String.mk
                      .blockquote (parseLines innerLines fuel 0) ::
                        parseLines lines fuel rq.2
                  | none =>
                      let r := collectPara lines (fuel + 1) (i + 1)
                      .paragraphB (paraChildren (fuel + 1) (line :: r.1)) ::
                        parseLines lines fuel r.2
      else []

/-- `MarkdownProcessor.parse` (processor.py lines 49-124): split into
lines and run the dispatch loop; the result is the `DocumentNode`'s
block list. -/
def parse (text : String) : List Block :=
  let lines := (splitOnNl text.data).map String.mk
  parseLines lines (lines.length + 1) 0

/-- C7.  Parsing `"# Title\n\nHello **world**"` yields a document of
exactly two top-level blocks — a level-1 `Heading` "Title" and a
`Paragraph` whose children are `[TextSpan "Hello ", Bold("world")]` —
and `Bold`'s style-override record is `{font_weight: bold}`. -/
theorem parse_example :
    parse "# Title\n\nHello **world**" =
      [.heading "Title" 1,
       .paragraphB [.textSpan "Hello ", .styled .bold [.textSpan "world"]]] ∧
    overridesOf .bold = [("font_weight", .s "bold")] := ⟨rfl, rfl⟩

/-- C9 witness: the concatenation evaluated on a one-node store — the
string operand builds the document container, the unsupported integer
operand fails and leaves the store untouched. -/
theorem node_concat_spec_witness :
    ((mdAdd [{ kind := .otherKind, parent := none, childIds := [] }] 0 (.str "x")).1
        = .ok 2 ∧
      (mdAdd [{ kind := .otherKind, parent := none, childIds := [] }] 0 (.str "x")).2[2]? =
        some { kind := .document, parent := none, childIds := [0, 1] } ∧
      (mdAdd [{ kind := .otherKind, parent := none, childIds := [] }] 0 (.str "x")).2[1]? =
        some { kind := .textSpanK "x", parent := some 2, childIds := [] }) ∧
    mdAdd [{ kind := .otherKind, parent := none, childIds := [] }] 0 (.intVal 3) =
      (.error .invalidInput, [{ kind := .otherKind, parent := none, childIds := [] }]) :=
  ⟨node_concat_spec.1 [{ kind := .otherKind, parent := none, childIds := [] }] 0 "x"
      (by decide),
   node_concat_spec.2 [{ kind := .otherKind, parent := none, childIds := [] }] 0 3⟩
